import Mathlib

/-!
Verification of the AF_XDP efhw backend (src/src/lib/efhw/af_xdp.c).

The definitions below are a shallow embedding of the data structures and
control flow of that file: the umem page directory (struct umem_pages and its
helpers), the protection-domain accounting (struct protection_domain,
xdp_release_pd), the VI/PD lookup helpers (vi_by_instance, pd_by_owner), the
activation argument checks (af_xdp_init), the ring provisioning arithmetic
(xdp_create_ring / xdp_create_rings) and the buffer-table operations
(af_xdp_nic_buffer_table_alloc / _free / _set).  Kernel allocation primitives
(kzalloc / krealloc) are modelled by explicit success oracles; pointers
returned by the lookup helpers are modelled by the array index they denote.
-/

namespace OnloadAfXdp

/-! Definitions: the shallow embedding of the data structures and
operations of af_xdp.c. -/

/-- PAGE_SHIFT on the modelled platform (4 KiB pages). -/
def PAGE_SHIFT : Nat := 12

/-- PAGE_SIZE = 1 << PAGE_SHIFT. -/
def PAGE_SIZE : Nat := 1 <<< PAGE_SHIFT

/-- UMEM_BLOCK = PAGE_SIZE / sizeof(void*) (af_xdp.c line 20): page-address
slots per umem_block. -/
def UMEM_BLOCK : Nat := PAGE_SIZE / 8

/-- MAX_PDS (af_xdp.c line 21): number of protection-domain slots allocated
per NIC. -/
def MAX_PDS : Nat := 256

/-- Conversion of a C int value to the kernel's 64-bit unsigned long, as the
usual arithmetic conversions perform when chunk_size meets PAGE_SIZE in
chunk_size > PAGE_SIZE and PAGE_SIZE % chunk_size (af_xdp.c lines 584-585):
the value modulo 2^64.  A negative int wraps to a huge value. -/
def int_to_ulong (x : Int) : Nat := (x % (2 ^ 64 : Int)).toNat

def ENOMEM : Int := 12

def ENODEV : Int := 19

def EINVAL : Int := 22

def ENOSPC : Int := 28

/-- struct umem_block (af_xdp.c line 24): a fixed array of UMEM_BLOCK user
page addresses.  Each block additionally carries the allocation identity `id`
of its kzalloc so that kfree accounting can be stated; kzalloc initialises
every address slot to 0 (NULL). -/
structure umem_block where
  id : Nat
  addrs : List Int
deriving DecidableEq

def umem_block.new (i : Nat) : umem_block := ⟨i, List.replicate UMEM_BLOCK 0⟩

/-- struct umem_pages (af_xdp.c line 30).  `blocks` models the kernel array of
the `block_count` allocated umem_block pointers. -/
structure umem_pages where
  page_count : Nat
  block_count : Nat
  used_page_count : Nat
  blocks : List umem_block
deriving DecidableEq

/-- A freshly zeroed umem_pages, as found in a freshly kzalloc'd PD. -/
def umem_pages.empty : umem_pages := ⟨0, 0, 0, []⟩

/-- umem_pages_free (af_xdp.c line 74): kfree blocks[0 .. block_count).
Returns the ids of the kfree'd blocks, in order. -/
def umem_pages_free (pages : umem_pages) : List Nat :=
  (pages.blocks.take pages.block_count).map umem_block.id

/-- The while loop of umem_pages_alloc (af_xdp.c lines 99-105): allocate
blocks until block_count reaches the target.  `oracle` supplies each kzalloc
result: `some i` is a fresh zeroed block with identity `i`, `none` is an
allocation failure (as is oracle exhaustion).  `fuel` is the number of blocks
still missing; the C loop runs while block_count < blocks. -/
def umem_alloc_loop : Nat → List (Option Nat) → umem_pages → umem_pages × Int
  | 0, _, p => (p, 0)
  | _ + 1, [], p => (p, -ENOMEM)
  | _ + 1, none :: _, p => (p, -ENOMEM)
  | n + 1, some i :: os, p =>
      umem_alloc_loop n os
        { p with blocks := p.blocks ++ [umem_block.new i],
                 block_count := p.block_count + 1 }

/-- umem_pages_alloc (af_xdp.c line 85).  `realloc_ok` models the krealloc of
the block-pointer array (which preserves the tracked blocks; in the scope
modelled here the array only ever grows).  On success page_count is advanced
by new_pages; on failure page_count is left unchanged but every block
allocated by the loop so far stays tracked in block_count. -/
def umem_pages_alloc (pages : umem_pages) (new_pages : Nat)
    (realloc_ok : Bool) (oracle : List (Option Nat)) : umem_pages × Int :=
  let blocks := (pages.page_count + new_pages + UMEM_BLOCK - 1) / UMEM_BLOCK
  if realloc_ok = false then (pages, -ENOMEM)
  else
    let r := umem_alloc_loop (blocks - pages.block_count) oracle pages
    if r.2 < 0 then r
    else ({ r.1 with page_count := r.1.page_count + new_pages }, 0)

/-- umem_pages_addr_ptr followed by the read in umem_pages_get_addr
(af_xdp.c lines 112-127): blocks[index / UMEM_BLOCK]->addrs[index % UMEM_BLOCK]. -/
def umem_pages_get_addr (pages : umem_pages) (page : Nat) : Int :=
  ((pages.blocks.getD (page / UMEM_BLOCK) (umem_block.new 0)).addrs).getD
    (page % UMEM_BLOCK) 0

/-- umem_pages_set_addr (af_xdp.c line 117): store the address, then advance
used_page_count only when page > used_page_count — and only to `page`, not to
`page + 1`. -/
def umem_pages_set_addr (pages : umem_pages) (page : Nat) (addr : Int) :
    umem_pages :=
  let bi := page / UMEM_BLOCK
  let b := pages.blocks.getD bi (umem_block.new 0)
  { pages with
    blocks := pages.blocks.set bi
      { b with addrs := b.addrs.set (page % UMEM_BLOCK) addr },
    used_page_count :=
      if pages.used_page_count < page then page else pages.used_page_count }

/-- fault (af_xdp.c line 377): page = offset >> PAGE_SHIFT; signal an access
violation (none, VM_FAULT_SIGSEGV) when page >= used_page_count, otherwise
resolve the stored address. -/
def fault (pages : umem_pages) (offset : Nat) : Option Int :=
  let page := offset >>> PAGE_SHIFT
  if pages.used_page_count ≤ page then none
  else some (umem_pages_get_addr pages page)

/-- Structural invariant of the page-directory storage, as maintained by the
kernel code: block_count counts exactly the allocated blocks, every block has
UMEM_BLOCK address slots, and every page index below page_count falls inside
an allocated block. -/
def umem_pages_wf (u : umem_pages) : Prop :=
  u.block_count = u.blocks.length ∧
  (∀ b ∈ u.blocks, b.addrs.length = UMEM_BLOCK) ∧
  u.page_count ≤ u.blocks.length * UMEM_BLOCK

instance (u : umem_pages) : Decidable (umem_pages_wf u) := by
  unfold umem_pages_wf; infer_instance

/-- A one-page directory whose single block is allocated but whose pages have
not yet been assigned: page_count = 1, block_count = 1, used_page_count = 0. -/
def umem_one_page : umem_pages := ⟨1, 1, 0, [umem_block.new 0]⟩

/-- struct efhw_af_xdp_vi (af_xdp.c line 40), the fields the modelled control
flow reads.  `sock` records whether the control handle (the socket file
pointer) is present. -/
structure efhw_af_xdp_vi where
  sock : Bool
  owner_id : Int
  rxq_capacity : Int
  txq_capacity : Int
deriving DecidableEq

/-- A VI slot as left by the kzalloc in af_xdp_nic_init_hardware. -/
def efhw_af_xdp_vi.empty : efhw_af_xdp_vi := ⟨false, 0, 0, 0⟩

/-- struct protection_domain (af_xdp.c line 52). -/
structure protection_domain where
  umem : umem_pages
  buffer_table_count : Nat
  freed_buffer_table_count : Nat
deriving DecidableEq

/-- A zeroed protection domain (fresh kzalloc, or after the memset in
xdp_release_pd). -/
def pd_zero : protection_domain := ⟨umem_pages.empty, 0, 0⟩

/-- struct efhw_nic_af_xdp (af_xdp.c line 60): the per-NIC VI and PD arrays.
af_xdp_nic_init_hardware sizes them to vi_lim and MAX_PDS entries. -/
structure efhw_nic_af_xdp where
  vi : List efhw_af_xdp_vi
  pd : List protection_domain
deriving DecidableEq

/-- The slice of struct efhw_nic this file reads. -/
structure efhw_nic where
  vi_lim : Int
  af_xdp : Option efhw_nic_af_xdp
deriving DecidableEq

/-- vi_by_instance (af_xdp.c line 136): NULL when xdp is NULL or
instance >= vi_lim, otherwise the pointer &xdp->vi[instance], modelled by the
(possibly negative, hence possibly out-of-bounds) index it denotes.  There is
no lower bound check on instance. -/

def vi_by_instance (nic : efhw_nic) (inst : Int) : Option Int :=
  match nic.af_xdp with
  | none => none
  | some _ => if nic.vi_lim ≤ inst then none else some inst

/-- pd_by_owner (af_xdp.c line 147): NULL when xdp is NULL or
owner_id > MAX_PDS or owner_id < 0 (note: >, not >=), otherwise the pointer
&xdp->pd[owner_id], modelled by the index it denotes. -/
def pd_by_owner (nic : efhw_nic) (owner_id : Int) : Option Int :=
  match nic.af_xdp with
  | none => none
  | some _ =>
      if (MAX_PDS : Int) < owner_id ∨ owner_id < 0 then none else some owner_id

/-- af_xdp_mem (af_xdp.c line 563): vi ? &vi->kernel_offsets : NULL.  The
kernel-offsets pointer is identified by the VI index the pointer arithmetic
used. -/
def af_xdp_mem (nic : efhw_nic) (inst : Int) : Option Int :=
  match vi_by_instance nic inst with
  | none => none
  | some p => some p

/-- Dereference a VI pointer (index) against the NIC arrays, as the callers of
vi_by_instance do with the returned pointer. -/
def vi_deref (nic : efhw_nic) (p : Int) : efhw_af_xdp_vi :=
  match nic.af_xdp with
  | none => efhw_af_xdp_vi.empty
  | some xdp => xdp.vi.getD p.toNat efhw_af_xdp_vi.empty

/-- The protection domain stored for an owner index on a NIC (array read). -/
def nic_pd (nic : efhw_nic) (owner : Nat) : protection_domain :=
  match nic.af_xdp with
  | none => pd_zero
  | some xdp => xdp.pd.getD owner pd_zero

/-- The per-NIC arrays exactly as af_xdp_nic_init_hardware (af_xdp.c line 720)
sizes them for vi_lim = 4: four VI slots and MAX_PDS protection domains. -/
def xdp0 : efhw_nic_af_xdp :=
  ⟨List.replicate 4 efhw_af_xdp_vi.empty, List.replicate MAX_PDS pd_zero⟩

/-- A NIC with vi_lim = 4 and the arrays of xdp0. -/
def nic0 : efhw_nic := ⟨4, some xdp0⟩

/-- Outcomes of the validation phase of af_xdp_init. `proceed` means control
reaches the first resource acquisition (the socket creation at af_xdp.c line
603); every other outcome is an early return taken before any resource is
acquired or any state is mutated. -/
inductive init_outcome where
  | einval_sizing
  | enodev
  | ebusy
  | einval_no_vi
  | proceed
deriving DecidableEq

/-- af_xdp_init, validation phase (af_xdp.c lines 582-603): the chunk/headroom
argument checks, the VI lookup, the busy check, the PD lookup and the guard
after it — which re-tests the vi pointer, not the pd pointer — up to the
first external call.  chunk_size == 0 and chunk_size < headroom compare ints;
chunk_size > PAGE_SIZE and PAGE_SIZE % chunk_size convert chunk_size to
unsigned long (int_to_ulong), so a negative chunk_size wraps to a huge value
and fails the size comparison. -/
def af_xdp_init_validate (nic : efhw_nic) (inst chunk_size headroom : Int) :
    init_outcome :=
  if chunk_size = 0 ∨ chunk_size < headroom ∨
      PAGE_SIZE < int_to_ulong chunk_size ∨
      PAGE_SIZE % int_to_ulong chunk_size ≠ 0 then
    .einval_sizing
  else
    let vi_ptr := vi_by_instance nic inst
    if vi_ptr = none then .enodev
    else
      let vi := vi_deref nic (vi_ptr.getD 0)
      if vi.sock then .ebusy
      else
        let _pd_ptr := pd_by_owner nic vi.owner_id
        if vi_ptr = none then .einval_no_vi
        else .proceed

/-- A NIC like nic0 whose VI 0 already has a control handle. -/
def nicBusy : efhw_nic :=
  ⟨4, some ⟨⟨true, 5, 128, 128⟩ :: List.replicate 3 efhw_af_xdp_vi.empty,
    List.replicate MAX_PDS pd_zero⟩⟩

/-- A NIC whose VI 0 is configured with owner_id 300: the owner does not
resolve to a protection domain (300 > MAX_PDS). -/
def nicOrphan : efhw_nic :=
  ⟨4, some ⟨⟨false, 300, 128, 128⟩ :: List.replicate 3 efhw_af_xdp_vi.empty,
    List.replicate MAX_PDS pd_zero⟩⟩

/-- Modelled from the spec: struct efhw_page_map and its helpers
(efhw_page_map_add_lump, efhw_page_map_add_page, efhw_page_map_bytes) belong
to this repository's efhw library outside src/.  Per the spec, the page map
accumulates runs of pages and its byte size is the accumulated page total. -/
structure efhw_page_map where
  n_pages : Nat
deriving DecidableEq

/-- Modelled from the spec: append a contiguous run of pages to the map. -/
def efhw_page_map_add_lump (pm : efhw_page_map) (pages : Nat) :
    efhw_page_map :=
  ⟨pm.n_pages + pages⟩

/-- Modelled from the spec: append a single page to the map. -/
def efhw_page_map_add_page (pm : efhw_page_map) : efhw_page_map :=
  efhw_page_map_add_lump pm 1

/-- Modelled from the spec: the total byte size of the mapped pages. -/
def efhw_page_map_bytes (pm : efhw_page_map) : Nat :=
  pm.n_pages <<< PAGE_SHIFT

/-- struct xdp_ring_offset: one ring's layout (producer index, consumer index,
descriptor array) as reported by the XDP_MMAP_OFFSETS socket option. -/
structure xdp_ring_offset where
  producer : Nat
  consumer : Nat
  desc : Nat
deriving DecidableEq

/-- struct xdp_mmap_offsets: the four rings' layouts. -/
structure xdp_mmap_offsets where
  rx : xdp_ring_offset
  tx : xdp_ring_offset
  fr : xdp_ring_offset
  cr : xdp_ring_offset
deriving DecidableEq

/-- struct efab_af_xdp_offsets_ring: an offset triple handed to user space. -/
structure offsets_ring where
  producer : Nat
  consumer : Nat
  desc : Nat
deriving DecidableEq

/-- struct efab_af_xdp_offsets_rings: the four user-visible triples. -/
structure offsets_rings where
  rx : offsets_ring
  tx : offsets_ring
  fr : offsets_ring
  cr : offsets_ring
deriving DecidableEq

/-- xdp_create_ring (af_xdp.c line 430), success path, user-visible side:
user_base is the page map's byte size before this ring's pages are appended
(line 443); the discovered page run of length `ring_pages` is appended as one
lump (line 469); the user offset triple adds the facility's layout to
user_base (lines 482-484).  The kernel-side offsets depend on discovered
physical addresses and are not modelled. -/
def xdp_create_ring (page_map : efhw_page_map) (ring_pages : Nat)
    (xdp_offset : xdp_ring_offset) : efhw_page_map × offsets_ring :=
  let user_base := page_map.n_pages <<< PAGE_SHIFT
  let pm := efhw_page_map_add_lump page_map ring_pages
  (pm, ⟨user_base + xdp_offset.producer, user_base + xdp_offset.consumer,
        user_base + xdp_offset.desc⟩)

/-- xdp_create_rings (af_xdp.c line 489), success path: provision RX, TX,
fill, completion, in that fixed order, into one page map. -/
def xdp_create_rings (page_map : efhw_page_map)
    (rx_pages tx_pages fr_pages cr_pages : Nat) (mo : xdp_mmap_offsets) :
    efhw_page_map × offsets_rings :=
  let r1 := xdp_create_ring page_map rx_pages mo.rx
  let r2 := xdp_create_ring r1.1 tx_pages mo.tx
  let r3 := xdp_create_ring r2.1 fr_pages mo.fr
  let r4 := xdp_create_ring r3.1 cr_pages mo.cr
  (r4.1, ⟨r1.2, r2.2, r3.2, r4.2⟩)

/-- af_xdp_init, page-map pipeline (af_xdp.c lines 612-641), success path: the
user-offsets page is added to the caller's map (line 617), the four rings are
provisioned (line 625), and mmap_bytes records the map's final byte size
(line 641).  Returns the final map, the user offset triples and mmap_bytes. -/
def af_xdp_init_page_map (page_map : efhw_page_map)
    (rx_pages tx_pages fr_pages cr_pages : Nat) (mo : xdp_mmap_offsets) :
    efhw_page_map × offsets_rings × Nat :=
  let pm := efhw_page_map_add_page page_map
  let r := xdp_create_rings pm rx_pages tx_pages fr_pages cr_pages mo
  (r.1, r.2, efhw_page_map_bytes r.1)

/-- Modelled from the spec: EFHW_BUFFER_TABLE_BLOCK_SIZE — the spec's
base_block_size, the number of buffer-table entries per block — is defined in
efhw headers outside src/; its value there is 32. -/
def EFHW_BUFFER_TABLE_BLOCK_SIZE : Nat := 32

/-- struct efhw_buffer_table_block, the fields af_xdp.c uses (lines 966-967):
handle = order | (owner << 8) (stored in btb_hw.ef10.handle) and btb_vaddr,
the block's base byte offset within the PD's umem. -/
structure buffer_table_block where
  handle : Nat
  btb_vaddr : Nat
deriving DecidableEq

/-- Outcome of af_xdp_nic_buffer_table_alloc on the resolved PD: the final PD
state, the return code, the block handed back (none on failure), and whether
the kzalloc'd block storage was kfree'd on the failure path. -/
structure bt_alloc_result where
  pd : protection_domain
  rc : Int
  block : Option buffer_table_block
  block_freed : Bool
deriving DecidableEq

/-- af_xdp_nic_buffer_table_alloc (af_xdp.c line 939), body after the PD
lookup and the owner-range check, acting on the resolved PD.  `block_ok`
models the kzalloc of the block handle; `realloc_ok` and `oracle` feed the
page growth (umem_pages_alloc).  On growth failure the block is kfree'd and
buffer_table_count is not incremented; on success the returned block carries
the handle encoding and the PD's prior page_count converted to bytes. -/
def bt_alloc_pd (pd : protection_domain) (owner order : Nat)
    (block_ok realloc_ok : Bool) (oracle : List (Option Nat)) :
    bt_alloc_result :=
  if block_ok = false then ⟨pd, -ENOMEM, none, false⟩
  else
    let handle := order ||| (owner <<< 8)
    let vaddr := pd.umem.page_count <<< PAGE_SHIFT
    let r := umem_pages_alloc pd.umem (EFHW_BUFFER_TABLE_BLOCK_SIZE <<< order)
      realloc_ok oracle
    if r.2 < 0 then ⟨{ pd with umem := r.1 }, r.2, none, true⟩
    else
      let pd1 := { pd with umem := r.1, buffer_table_count := pd.buffer_table_count + 1 }
      ⟨pd1, 0, some ⟨handle, vaddr⟩, false⟩

/-- af_xdp_nic_buffer_table_alloc (af_xdp.c line 939): the PD lookup (NULL pd
is -ENODEV), the owner >= 1 << 24 check (-ENOSPC), then the PD-level body,
with the updated PD written back to the array. -/
def af_xdp_nic_buffer_table_alloc (nic : efhw_nic) (owner : Int) (order : Nat)
    (block_ok realloc_ok : Bool) (oracle : List (Option Nat)) :
    efhw_nic × bt_alloc_result :=
  match nic.af_xdp with
  | none => (nic, ⟨pd_zero, -ENODEV, none, false⟩)
  | some xdp =>
    match pd_by_owner nic owner with
    | none => (nic, ⟨pd_zero, -ENODEV, none, false⟩)
    | some p =>
      if ((1 <<< 24 : Nat) : Int) ≤ owner then
        (nic, ⟨xdp.pd.getD p.toNat pd_zero, -ENOSPC, none, false⟩)
      else
        let r := bt_alloc_pd (xdp.pd.getD p.toNat pd_zero) owner.toNat order
          block_ok realloc_ok oracle
        (⟨nic.vi_lim, some ⟨xdp.vi, xdp.pd.set p.toNat r.pd⟩⟩, r)

/-- xdp_release_pd (af_xdp.c line 535), acting on the resolved PD; none
models the BUG_ON freed_buffer_table_count >= buffer_table_count firing (the
NULL-pd BUG_ON is handled at the caller level).  On a non-final free only the
freed count advances; on the final free umem_pages_free releases the block
storage and the PD is memset to zero. -/
def xdp_release_pd (pd : protection_domain) : Option protection_domain :=
  if pd.buffer_table_count ≤ pd.freed_buffer_table_count then none
  else if pd.freed_buffer_table_count + 1 ≠ pd.buffer_table_count then
    some { pd with
      freed_buffer_table_count := pd.freed_buffer_table_count + 1 }
  else some pd_zero

/-- af_xdp_nic_buffer_table_free (af_xdp.c line 990): decode the owner from
the handle, kfree the block, release the PD; none models a BUG_ON firing. -/
def af_xdp_nic_buffer_table_free (nic : efhw_nic)
    (block : buffer_table_block) : Option efhw_nic :=
  let owner := block.handle >>> 8
  match nic.af_xdp with
  | none => none
  | some xdp =>
    match pd_by_owner nic (owner : Int) with
    | none => none
    | some p =>
      match xdp_release_pd (xdp.pd.getD p.toNat pd_zero) with
      | none => none
      | some pd1 => some ⟨nic.vi_lim, some ⟨xdp.vi, xdp.pd.set p.toNat pd1⟩⟩

/-- A buffer-table operation against one owner's PD. -/
inductive bt_op where
  | alloc (order : Nat) (block_ok realloc_ok : Bool)
      (oracle : List (Option Nat))
  | free
deriving DecidableEq

/-- One step of buffer-table accounting on one owner's PD; none models a
BUG_ON firing. -/
def pd_step (owner : Nat) (pd : protection_domain) :
    bt_op → Option protection_domain
  | .alloc order bok rok os => some (bt_alloc_pd pd owner order bok rok os).pd
  | .free => xdp_release_pd pd

/-- Run a sequence of buffer-table operations against one owner's PD. -/
def pd_run (owner : Nat) : protection_domain → List bt_op →
    Option protection_domain
  | pd, [] => some pd
  | pd, op :: ops =>
    match pd_step owner pd op with
    | none => none
    | some pd1 => pd_run owner pd1 ops

/-- The PD accounting invariant. -/
def pd_invariant (pd : protection_domain) : Prop :=
  pd.freed_buffer_table_count ≤ pd.buffer_table_count

instance (pd : protection_domain) : Decidable (pd_invariant pd) := by
  unfold pd_invariant; infer_instance

/-- Inner loop of af_xdp_nic_buffer_table_set (af_xdp.c line 1047): write the
2^order pages of one entry, advancing the stored address by PAGE_SIZE per
page. -/
def bt_set_entry : umem_pages → Nat → Int → Nat → umem_pages
  | u, _, _, 0 => u
  | u, page, addr, j + 1 =>
      bt_set_entry (umem_pages_set_addr u page addr) (page + 1)
        (addr + (PAGE_SIZE : Int)) j

/-- Outer loop of af_xdp_nic_buffer_table_set (af_xdp.c line 1045): one entry
per supplied address. -/
def bt_set_loop : umem_pages → Nat → Nat → List Int → umem_pages
  | u, _, _, [] => u
  | u, page, order, a :: rest =>
      bt_set_loop (bt_set_entry u page a (1 <<< order))
        (page + (1 <<< order)) order rest

/-- af_xdp_nic_buffer_table_set (af_xdp.c line 1001): decode owner and order
from the handle, look up the PD, bounds-check the page range against the
PD's page_count (line 1042), then run the write loops. -/
def af_xdp_nic_buffer_table_set (nic : efhw_nic)
    (block : buffer_table_block) (first_entry n_entries : Nat)
    (dma_addrs : List Int) : efhw_nic × Int :=
  let owner := block.handle >>> 8
  let order := block.handle &&& 255
  match nic.af_xdp with
  | none => (nic, -ENODEV)
  | some xdp =>
    match pd_by_owner nic (owner : Int) with
    | none => (nic, -ENODEV)
    | some p =>
      let pd := xdp.pd.getD p.toNat pd_zero
      let page := (block.btb_vaddr >>> PAGE_SHIFT) + (first_entry <<< order)
      if pd.umem.page_count < page + (n_entries <<< order) then (nic, -EINVAL)
      else
        let u1 := bt_set_loop pd.umem page order (dma_addrs.take n_entries)
        (⟨nic.vi_lim, some ⟨xdp.vi,
          xdp.pd.set p.toNat { pd with umem := u1 }⟩⟩, 0)

/-- The per-NIC arrays of a NIC whose owner-0 protection domain already has a
grown four-page directory backed by one block and one outstanding
buffer-table block. -/
def xdp1 : efhw_nic_af_xdp :=
  ⟨List.replicate 4 efhw_af_xdp_vi.empty,
   ⟨⟨4, 1, 0, [umem_block.new 0]⟩, 1, 0⟩ :: List.replicate 255 pd_zero⟩

/-- A NIC with the arrays of xdp1. -/
def nic1 : efhw_nic := ⟨4, some xdp1⟩

/-! Theorems: claims settled against the embedding. -/

theorem umem_alloc_loop_spec (n : Nat) : ∀ (os : List (Option Nat))
    (p : umem_pages),
    (umem_alloc_loop n os p).1.page_count = p.page_count ∧
    (umem_alloc_loop n os p).1.used_page_count = p.used_page_count ∧
    ∃ newly : List umem_block,
      (umem_alloc_loop n os p).1.blocks = p.blocks ++ newly ∧
      (umem_alloc_loop n os p).1.block_count = p.block_count + newly.length ∧
      List.Sublist (newly.map umem_block.id) (os.filterMap (fun x => x)) ∧
      ∀ b ∈ newly, b.addrs = List.replicate UMEM_BLOCK 0 := by
  induction n with
  | zero =>
      intro os p
      refine ⟨rfl, rfl, [], by simp [umem_alloc_loop]⟩
  | succ n ih =>
      intro os p
      match os with
      | [] => exact ⟨rfl, rfl, [], by simp [umem_alloc_loop]⟩
      | none :: os' => exact ⟨rfl, rfl, [], by simp [umem_alloc_loop]⟩
      | some i :: os' =>
          have h := ih os' { p with
            blocks := p.blocks ++ [umem_block.new i],
            block_count := p.block_count + 1 }
          obtain ⟨h1, h2, newly, h3, h4, h5, h6⟩ := h
          refine ⟨by simpa [umem_alloc_loop] using h1,
                  by simpa [umem_alloc_loop] using h2,
                  umem_block.new i :: newly, ?_, ?_, ?_, ?_⟩
          · simpa [umem_alloc_loop] using h3
          · simp only [umem_alloc_loop]
            rw [h4]; simp; omega
          · simp only [List.map_cons, List.filterMap_cons]
            exact List.Sublist.cons₂ _ h5
          · intro b hb
            rcases List.mem_cons.mp hb with h | h
            · subst h; simp [umem_block.new]
            · exact h6 b h

/-- umem_pages_free frees the whole tracked block list when block_count is
exact. -/
theorem umem_pages_free_eq (u : umem_pages)
    (h : u.block_count = u.blocks.length) :
    umem_pages_free u = u.blocks.map umem_block.id := by
  simp [umem_pages_free, h]

/-- C4: umem_pages_alloc leaves page_count unchanged on failure, keeps every
block allocated in the failed call tracked in block_count, and a subsequent
umem_pages_free frees exactly the tracked blocks, once each.

For every page-directory state satisfying the structural invariant and every
growth request: (i) if the call fails, page_count is unchanged; (ii) the
resulting state again satisfies the invariant (block_count counts exactly the
allocated blocks); (iii) the resulting block list extends the previous one by
the blocks freshly allocated in this call (their ids coming from successful
kzallocs of this call); (iv) umem_pages_free then kfrees exactly the tracked
blocks, in order; (v) if all block identities are distinct, no block is freed
twice. -/
theorem C4_grow_partial_failure (p : umem_pages) (new_pages : Nat)
    (rok : Bool) (os : List (Option Nat)) (hwf : umem_pages_wf p) :
    ((umem_pages_alloc p new_pages rok os).2 < 0 →
      (umem_pages_alloc p new_pages rok os).1.page_count = p.page_count) ∧
    (umem_pages_alloc p new_pages rok os).1.block_count =
      (umem_pages_alloc p new_pages rok os).1.blocks.length ∧
    (∃ newly : List umem_block,
      (umem_pages_alloc p new_pages rok os).1.blocks = p.blocks ++ newly ∧
      List.Sublist (newly.map umem_block.id) (os.filterMap (fun x => x))) ∧
    umem_pages_free (umem_pages_alloc p new_pages rok os).1 =
      (umem_pages_alloc p new_pages rok os).1.blocks.map umem_block.id ∧
    ((p.blocks.map umem_block.id ++ os.filterMap (fun x => x)).Nodup →
      (umem_pages_free (umem_pages_alloc p new_pages rok os).1).Nodup) := by
  obtain ⟨hcnt, -, -⟩ := hwf
  cases rok with
  | false =>
      have he : umem_pages_alloc p new_pages false os = (p, -ENOMEM) := rfl
      rw [he]
      refine ⟨fun _ => rfl, hcnt, ⟨[], by simp⟩, umem_pages_free_eq p hcnt,
        fun hnd => ?_⟩
      rw [umem_pages_free_eq p hcnt]
      exact hnd.sublist (List.sublist_append_left _ _)
  | true =>
      obtain ⟨hpc, -, newly, hblocks, hbc, hsub, -⟩ :=
        umem_alloc_loop_spec
          ((p.page_count + new_pages + UMEM_BLOCK - 1) / UMEM_BLOCK -
            p.block_count) os p
      have hcnt' : (umem_alloc_loop
          ((p.page_count + new_pages + UMEM_BLOCK - 1) / UMEM_BLOCK -
            p.block_count) os p).1.block_count =
          (umem_alloc_loop
          ((p.page_count + new_pages + UMEM_BLOCK - 1) / UMEM_BLOCK -
            p.block_count) os p).1.blocks.length := by
        rw [hblocks, hbc, List.length_append, hcnt]
      have hnodup : (p.blocks.map umem_block.id ++
          os.filterMap (fun x => x)).Nodup →
          ((umem_alloc_loop
          ((p.page_count + new_pages + UMEM_BLOCK - 1) / UMEM_BLOCK -
            p.block_count) os p).1.blocks.map umem_block.id).Nodup := by
        intro hnd
        rw [hblocks, List.map_append]
        exact hnd.sublist (List.Sublist.append (List.Sublist.refl _) hsub)
      by_cases hf : (umem_alloc_loop
          ((p.page_count + new_pages + UMEM_BLOCK - 1) / UMEM_BLOCK -
            p.block_count) os p).2 < 0
      · have he : umem_pages_alloc p new_pages true os = umem_alloc_loop
            ((p.page_count + new_pages + UMEM_BLOCK - 1) / UMEM_BLOCK -
              p.block_count) os p := by
          show (if _ < (0 : Int) then _ else _) = _
          rw [if_pos hf]
        rw [he]
        refine ⟨fun _ => hpc, hcnt', ⟨newly, hblocks, hsub⟩,
          umem_pages_free_eq _ hcnt', fun hnd => ?_⟩
        rw [umem_pages_free_eq _ hcnt']
        exact hnodup hnd
      · have he : umem_pages_alloc p new_pages true os =
            ({ (umem_alloc_loop
              ((p.page_count + new_pages + UMEM_BLOCK - 1) / UMEM_BLOCK -
                p.block_count) os p).1 with
              page_count := (umem_alloc_loop
              ((p.page_count + new_pages + UMEM_BLOCK - 1) / UMEM_BLOCK -
                p.block_count) os p).1.page_count + new_pages }, 0) := by
          show (if _ < (0 : Int) then _ else _) = _
          rw [if_neg hf]
        rw [he]
        refine ⟨fun h => absurd h (by norm_num), hcnt', ⟨newly, hblocks, hsub⟩,
          umem_pages_free_eq _ hcnt', fun hnd => ?_⟩
        show (umem_pages_free (umem_alloc_loop
          ((p.page_count + new_pages + UMEM_BLOCK - 1) / UMEM_BLOCK -
            p.block_count) os p).1).Nodup
        rw [umem_pages_free_eq _ hcnt']
        exact hnodup hnd

/-- Witness for C4 at a concrete partial failure: growing an empty directory
by 600 pages needs two blocks; the oracle lets the first kzalloc succeed and
fails the second. -/
theorem C4_grow_partial_failure_witness :
    umem_pages_wf umem_pages.empty ∧
    (((umem_pages_alloc umem_pages.empty 600 true [some 1, none]).2 < 0 →
      (umem_pages_alloc umem_pages.empty 600 true
        [some 1, none]).1.page_count = umem_pages.empty.page_count) ∧
    (umem_pages_alloc umem_pages.empty 600 true [some 1, none]).1.block_count =
      (umem_pages_alloc umem_pages.empty 600 true
        [some 1, none]).1.blocks.length ∧
    (∃ newly : List umem_block,
      (umem_pages_alloc umem_pages.empty 600 true [some 1, none]).1.blocks =
        umem_pages.empty.blocks ++ newly ∧
      List.Sublist (newly.map umem_block.id)
        (([some 1, none] : List (Option Nat)).filterMap (fun x => x))) ∧
    umem_pages_free (umem_pages_alloc umem_pages.empty 600 true
        [some 1, none]).1 =
      (umem_pages_alloc umem_pages.empty 600 true
        [some 1, none]).1.blocks.map umem_block.id ∧
    ((umem_pages.empty.blocks.map umem_block.id ++
        ([some 1, none] : List (Option Nat)).filterMap (fun x => x)).Nodup →
      (umem_pages_free (umem_pages_alloc umem_pages.empty 600 true
        [some 1, none]).1).Nodup)) :=
  ⟨by decide, C4_grow_partial_failure umem_pages.empty 600 true
    [some 1, none] (by decide)⟩

/-- C1 (recording the code's behaviour at the failing input): on a fresh
one-page directory, set(0, h) stores the handle but leaves used_page_count at
0, because umem_pages_set_addr advances the mark only when page >
used_page_count and only to the page index itself, not past it; the very page
just written therefore still faults (handle_fault signals an access violation
instead of returning h). -/
theorem C1_set_then_fault_violates :
    (umem_pages_set_addr umem_one_page 0 7).used_page_count = 0 ∧
    umem_pages_get_addr (umem_pages_set_addr umem_one_page 0 7) 0 = 7 ∧
    fault (umem_pages_set_addr umem_one_page 0 7) 0 = none := by decide

/-- C3 (recording the code's behaviour at the failing input): the PD array has
exactly MAX_PDS = 256 entries (indices 0..255), yet pd_by_owner accepts
owner_id = 256 — its bound check is owner_id > MAX_PDS, not >= — and returns
the pointer &pd[256], one element past the end of the array, instead of
failing with no-such-device.  Owners 257 and -1 are rejected as the claim
demands. -/
theorem C3_pd_lookup_off_by_one :
    nic0.af_xdp = some xdp0 ∧
    xdp0.pd.length = 256 ∧
    pd_by_owner nic0 256 = some 256 ∧
    pd_by_owner nic0 257 = none ∧
    pd_by_owner nic0 (-1) = none := by
  refine ⟨rfl, ?_, by decide, by decide, by decide⟩
  rw [show xdp0.pd = List.replicate MAX_PDS pd_zero from rfl,
    List.length_replicate, MAX_PDS]

/-- C9 (recording the code's behaviour at the failing input): vi_by_instance
checks only instance >= vi_lim, never instance < 0, so instance = -1 on a NIC
with vi_lim = 4 yields the pointer &vi[-1] — outside the VI array — and
af_xdp_mem consequently returns a non-null kernel-offsets pointer instead of
absent. -/
theorem C9_negative_instance_not_rejected :
    vi_by_instance nic0 (-1) = some (-1) ∧
    af_xdp_mem nic0 (-1) = some (-1) ∧
    (-1 : Int) < 0 ∧
    vi_by_instance nic0 4 = none ∧ af_xdp_mem nic0 4 = none := by
  refine ⟨by decide, by decide, by decide, by decide, by decide⟩

/-- C5: af_xdp_init returns invalid-argument exactly when chunk_size is zero,
or headroom exceeds chunk_size, or chunk_size — converted to unsigned long,
as the C comparison does — exceeds the page size, or does not divide the
page size; in particular every negative int chunk_size wraps to a huge value
and is rejected.  einval_sizing is returned before the model reaches any
other outcome, in particular before proceed, the first resource acquisition.
With valid sizing, a NULL VI lookup is rejected with no-such-device, and a
VI whose control handle is already present is rejected with busy. -/
theorem C5_init_validation (nic : efhw_nic) (inst chunk headroom : Int) :
    ((chunk = 0 ∨ chunk < headroom ∨ PAGE_SIZE < int_to_ulong chunk ∨
        PAGE_SIZE % int_to_ulong chunk ≠ 0) →
      af_xdp_init_validate nic inst chunk headroom = .einval_sizing) ∧
    (-(2 ^ 31) ≤ chunk → chunk < 0 →
      af_xdp_init_validate nic inst chunk headroom = .einval_sizing) ∧
    (¬(chunk = 0 ∨ chunk < headroom ∨ PAGE_SIZE < int_to_ulong chunk ∨
        PAGE_SIZE % int_to_ulong chunk ≠ 0) →
      vi_by_instance nic inst = none →
      af_xdp_init_validate nic inst chunk headroom = .enodev) ∧
    (∀ p : Int, ¬(chunk = 0 ∨ chunk < headroom ∨
        PAGE_SIZE < int_to_ulong chunk ∨
        PAGE_SIZE % int_to_ulong chunk ≠ 0) →
      vi_by_instance nic inst = some p →
      (vi_deref nic p).sock = true →
      af_xdp_init_validate nic inst chunk headroom = .ebusy) := by
  refine ⟨fun h => ?_, fun hrange hneg => ?_, fun h hvi => ?_,
    fun p h hvi hsock => ?_⟩
  · simp [af_xdp_init_validate, h]
  · have hul : PAGE_SIZE < int_to_ulong chunk := by
      unfold int_to_ulong
      rw [show PAGE_SIZE = 4096 from rfl]
      omega
    simp [af_xdp_init_validate, hul]
  · simp [af_xdp_init_validate, h, hvi]
  · simp [af_xdp_init_validate, h, hvi, hsock]

/-- Witness for C5: chunk_size 0 and chunk_size -1 (wrapping to a huge
unsigned value) are rejected with invalid-argument, a nonexistent instance
with no-such-device, and an already-active VI with busy. -/
theorem C5_init_validation_witness :
    af_xdp_init_validate nic0 0 0 0 = .einval_sizing ∧
    af_xdp_init_validate nic0 0 (-1) (-1) = .einval_sizing ∧
    af_xdp_init_validate nic0 99 2048 0 = .enodev ∧
    af_xdp_init_validate nicBusy 0 2048 0 = .ebusy :=
  ⟨(C5_init_validation nic0 0 0 0).1 (Or.inl rfl),
   (C5_init_validation nic0 0 (-1) (-1)).2.1 (by decide) (by decide),
   (C5_init_validation nic0 99 2048 0).2.2.1 (by decide) (by decide),
   (C5_init_validation nicBusy 0 2048 0).2.2.2 0 (by decide) (by decide)
     (by decide)⟩

/-- C10: the invalid-argument guard that follows the protection-domain lookup
in af_xdp_init re-tests the vi pointer instead of the pd pointer, so it is
never taken — no execution of the validation phase returns einval_no_vi — and
once the sizing checks, the VI lookup and the busy check have passed,
activation proceeds to resource acquisition even when the VI's owner id does
not resolve to a protection domain. -/
theorem C10_dead_pd_guard (nic : efhw_nic) (inst chunk headroom : Int) :
    (af_xdp_init_validate nic inst chunk headroom ≠ .einval_no_vi) ∧
    (∀ p : Int, ¬(chunk = 0 ∨ chunk < headroom ∨
        PAGE_SIZE < int_to_ulong chunk ∨
        PAGE_SIZE % int_to_ulong chunk ≠ 0) →
      vi_by_instance nic inst = some p →
      (vi_deref nic p).sock = false →
      pd_by_owner nic (vi_deref nic p).owner_id = none →
      af_xdp_init_validate nic inst chunk headroom = .proceed) := by
  constructor
  · by_cases h : chunk = 0 ∨ chunk < headroom ∨
        PAGE_SIZE < int_to_ulong chunk ∨
        PAGE_SIZE % int_to_ulong chunk ≠ 0
    · simp [af_xdp_init_validate, h]
    · cases hvi : vi_by_instance nic inst with
      | none => simp [af_xdp_init_validate, h, hvi]
      | some p =>
          by_cases hs : (vi_deref nic p).sock
          · simp [af_xdp_init_validate, h, hvi, hs]
          · simp [af_xdp_init_validate, h, hvi, hs]
  · intro p h hvi hsock _
    simp [af_xdp_init_validate, h, hvi, hsock]

/-- Witness for C10: on nicOrphan the PD lookup fails for VI 0's owner, yet
activation proceeds past the guard. -/
theorem C10_dead_pd_guard_witness :
    af_xdp_init_validate nicOrphan 0 2048 0 = .proceed ∧
    pd_by_owner nicOrphan 300 = none :=
  ⟨(C10_dead_pd_guard nicOrphan 0 2048 0).2 0 (by decide) (by decide)
     (by decide) (by decide), by decide⟩

/-- Left-shifting by PAGE_SHIFT is strictly monotone. -/
theorem shiftLeft_page_lt (a b : Nat) (h : a < b) :
    a <<< PAGE_SHIFT < b <<< PAGE_SHIFT := by
  rw [Nat.shiftLeft_eq, Nat.shiftLeft_eq]
  exact mul_lt_mul_of_pos_right h (by positivity)

/-- C7: with the rings provisioned in the fixed order RX, TX, fill,
completion, each ring's user-visible offset triple is its layout added to the
page map's cumulative byte size before that ring's pages are appended; the
four user-base byte offsets are strictly increasing across RX, TX, fill,
completion (each ring maps at least one page); and the mmap_bytes recorded at
the end of activation equals the final page map's total byte size. -/
theorem C7_ring_provisioning (pm : efhw_page_map)
    (rxp txp frp crp : Nat) (mo : xdp_mmap_offsets)
    (hrx : 1 ≤ rxp) (htx : 1 ≤ txp) (hfr : 1 ≤ frp) (hcr : 1 ≤ crp) :
    (af_xdp_init_page_map pm rxp txp frp crp mo).2.1.rx =
      ⟨(pm.n_pages + 1) <<< PAGE_SHIFT + mo.rx.producer,
       (pm.n_pages + 1) <<< PAGE_SHIFT + mo.rx.consumer,
       (pm.n_pages + 1) <<< PAGE_SHIFT + mo.rx.desc⟩ ∧
    (af_xdp_init_page_map pm rxp txp frp crp mo).2.1.tx =
      ⟨(pm.n_pages + 1 + rxp) <<< PAGE_SHIFT + mo.tx.producer,
       (pm.n_pages + 1 + rxp) <<< PAGE_SHIFT + mo.tx.consumer,
       (pm.n_pages + 1 + rxp) <<< PAGE_SHIFT + mo.tx.desc⟩ ∧
    (af_xdp_init_page_map pm rxp txp frp crp mo).2.1.fr =
      ⟨(pm.n_pages + 1 + rxp + txp) <<< PAGE_SHIFT + mo.fr.producer,
       (pm.n_pages + 1 + rxp + txp) <<< PAGE_SHIFT + mo.fr.consumer,
       (pm.n_pages + 1 + rxp + txp) <<< PAGE_SHIFT + mo.fr.desc⟩ ∧
    (af_xdp_init_page_map pm rxp txp frp crp mo).2.1.cr =
      ⟨(pm.n_pages + 1 + rxp + txp + frp) <<< PAGE_SHIFT + mo.cr.producer,
       (pm.n_pages + 1 + rxp + txp + frp) <<< PAGE_SHIFT + mo.cr.consumer,
       (pm.n_pages + 1 + rxp + txp + frp) <<< PAGE_SHIFT + mo.cr.desc⟩ ∧
    (pm.n_pages + 1) <<< PAGE_SHIFT <
      (pm.n_pages + 1 + rxp) <<< PAGE_SHIFT ∧
    (pm.n_pages + 1 + rxp) <<< PAGE_SHIFT <
      (pm.n_pages + 1 + rxp + txp) <<< PAGE_SHIFT ∧
    (pm.n_pages + 1 + rxp + txp) <<< PAGE_SHIFT <
      (pm.n_pages + 1 + rxp + txp + frp) <<< PAGE_SHIFT ∧
    (af_xdp_init_page_map pm rxp txp frp crp mo).2.2 =
      efhw_page_map_bytes (af_xdp_init_page_map pm rxp txp frp crp mo).1 ∧
    (af_xdp_init_page_map pm rxp txp frp crp mo).2.2 =
      (pm.n_pages + 1 + rxp + txp + frp + crp) <<< PAGE_SHIFT ∧
    (pm.n_pages + 1 + rxp + txp + frp) <<< PAGE_SHIFT <
      (af_xdp_init_page_map pm rxp txp frp crp mo).2.2 := by
  refine ⟨rfl, rfl, rfl, rfl, ?_, ?_, ?_, rfl, rfl, ?_⟩
  · exact shiftLeft_page_lt _ _ (by omega)
  · exact shiftLeft_page_lt _ _ (by omega)
  · exact shiftLeft_page_lt _ _ (by omega)
  · show (pm.n_pages + 1 + rxp + txp + frp) <<< PAGE_SHIFT <
      (pm.n_pages + 1 + rxp + txp + frp + crp) <<< PAGE_SHIFT
    exact shiftLeft_page_lt _ _ (by omega)

/-- Witness for C7 at a concrete provisioning: empty incoming map, one page
per ring, zero layouts. -/
theorem C7_ring_provisioning_witness :
    (af_xdp_init_page_map ⟨0⟩ 1 1 1 1 ⟨⟨0, 4, 8⟩, ⟨0, 4, 8⟩, ⟨0, 4, 8⟩,
        ⟨0, 4, 8⟩⟩).2.1.rx = ⟨4096, 4100, 4104⟩ ∧
    (af_xdp_init_page_map ⟨0⟩ 1 1 1 1 ⟨⟨0, 4, 8⟩, ⟨0, 4, 8⟩, ⟨0, 4, 8⟩,
        ⟨0, 4, 8⟩⟩).2.2 = 5 <<< PAGE_SHIFT := by
  have h := C7_ring_provisioning ⟨0⟩ 1 1 1 1
    ⟨⟨0, 4, 8⟩, ⟨0, 4, 8⟩, ⟨0, 4, 8⟩, ⟨0, 4, 8⟩⟩
    (by decide) (by decide) (by decide) (by decide)
  exact ⟨by rw [h.1]; decide, by rw [h.2.2.2.2.2.2.2.2.1]⟩

/-- bt_alloc_pd never decreases buffer_table_count and never touches
freed_buffer_table_count. -/
theorem bt_alloc_pd_counts (pd : protection_domain) (owner order : Nat)
    (bok rok : Bool) (os : List (Option Nat)) :
    (pd.buffer_table_count ≤
      (bt_alloc_pd pd owner order bok rok os).pd.buffer_table_count) ∧
    (bt_alloc_pd pd owner order bok rok os).pd.freed_buffer_table_count =
      pd.freed_buffer_table_count := by
  unfold bt_alloc_pd
  by_cases hb : bok = false
  · simp [hb]
  · by_cases hf : (umem_pages_alloc pd.umem
        (EFHW_BUFFER_TABLE_BLOCK_SIZE <<< order) rok os).2 < 0
    · simp [hb, hf]
    · simp [hb, hf]

/-- Characterisation of a successful xdp_release_pd step. -/
theorem xdp_release_pd_spec (pd pd1 : protection_domain)
    (h : xdp_release_pd pd = some pd1) :
    0 < pd.buffer_table_count ∧
    pd.freed_buffer_table_count < pd.buffer_table_count ∧
    (pd1 = pd_zero ↔
      pd.freed_buffer_table_count + 1 = pd.buffer_table_count) := by
  unfold xdp_release_pd at h
  by_cases hbug : pd.buffer_table_count ≤ pd.freed_buffer_table_count
  · rw [if_pos hbug] at h; exact absurd h (by simp)
  · rw [if_neg hbug] at h
    have hlt : pd.freed_buffer_table_count < pd.buffer_table_count := by omega
    by_cases hfin : pd.freed_buffer_table_count + 1 ≠ pd.buffer_table_count
    · rw [if_pos hfin] at h
      obtain rfl := (Option.some.inj h)
      refine ⟨by omega, hlt, ?_⟩
      constructor
      · intro hz
        have : ({ pd with freed_buffer_table_count :=
            pd.freed_buffer_table_count + 1 } :
            protection_domain).freed_buffer_table_count =
            pd_zero.freed_buffer_table_count := by rw [hz]
        simp [pd_zero] at this
      · intro hc; exact absurd hc hfin
    · rw [if_neg hfin] at h
      obtain rfl := (Option.some.inj h)
      refine ⟨by omega, hlt, ?_⟩
      exact iff_of_true rfl (by omega)

/-- Each buffer-table step preserves the accounting invariant. -/
theorem pd_step_invariant (owner : Nat) (pd pd1 : protection_domain)
    (op : bt_op) (hinv : pd_invariant pd)
    (hstep : pd_step owner pd op = some pd1) : pd_invariant pd1 := by
  cases op with
  | alloc order bok rok os =>
      simp only [pd_step] at hstep
      obtain rfl := Option.some.inj hstep
      obtain ⟨h1, h2⟩ := bt_alloc_pd_counts pd owner order bok rok os
      unfold pd_invariant at hinv ⊢
      omega
  | free =>
      simp only [pd_step] at hstep
      obtain ⟨-, hlt, -⟩ := xdp_release_pd_spec pd pd1 hstep
      unfold xdp_release_pd at hstep
      rw [if_neg (by omega)] at hstep
      by_cases hfin : pd.freed_buffer_table_count + 1 ≠ pd.buffer_table_count
      · rw [if_pos hfin] at hstep
        obtain rfl := Option.some.inj hstep
        unfold pd_invariant
        simp only []
        omega
      · rw [if_neg hfin] at hstep
        obtain rfl := Option.some.inj hstep
        simp [pd_invariant, pd_zero]

/-- Every run from an invariant-satisfying PD state ends (when no BUG_ON
fires) in an invariant-satisfying state. -/
theorem pd_run_invariant (owner : Nat) (ops : List bt_op) :
    ∀ pd pd1 : protection_domain, pd_invariant pd →
    pd_run owner pd ops = some pd1 → pd_invariant pd1 := by
  induction ops with
  | nil =>
      intro pd pd1 hinv hrun
      simp only [pd_run] at hrun
      obtain rfl := Option.some.inj hrun
      exact hinv
  | cons op ops ih =>
      intro pd pd1 hinv hrun
      simp only [pd_run] at hrun
      cases hs : pd_step owner pd op with
      | none => rw [hs] at hrun; exact absurd hrun (by simp)
      | some pd2 =>
          rw [hs] at hrun
          exact ih pd2 pd1 (pd_step_invariant owner pd pd2 op hinv hs) hrun

/-- C2: the accounting invariant freed_buffer_table_count <=
buffer_table_count is preserved by every buffer-table step and therefore
holds at all times along every interleaving of allocate/free calls from the
zeroed PD; a successful free resets the PD to the zeroed state (Page
Directory freed, counts zeroed) exactly when the increment makes
freed_buffer_table_count equal buffer_table_count (which is then positive);
and a single successful allocate followed by a free, with no other blocks for
that owner, resets the PD, returning page_count to 0. -/
theorem C2_pd_accounting (owner : Nat) :
    (∀ (pd pd1 : protection_domain) (op : bt_op), pd_invariant pd →
      pd_step owner pd op = some pd1 → pd_invariant pd1) ∧
    (∀ (ops : List bt_op) (pd1 : protection_domain),
      pd_run owner pd_zero ops = some pd1 → pd_invariant pd1) ∧
    (∀ pd pd1 : protection_domain, xdp_release_pd pd = some pd1 →
      (0 < pd.buffer_table_count ∧
        (pd1 = pd_zero ↔
          pd.freed_buffer_table_count + 1 = pd.buffer_table_count))) ∧
    (∀ (order : Nat) (bok rok : Bool) (os : List (Option Nat))
        (blk : buffer_table_block),
      (bt_alloc_pd pd_zero owner order bok rok os).block = some blk →
      xdp_release_pd (bt_alloc_pd pd_zero owner order bok rok os).pd =
        some pd_zero ∧
      pd_zero.umem.page_count = 0) := by
  refine ⟨fun pd pd1 op => pd_step_invariant owner pd pd1 op,
    fun ops pd1 => pd_run_invariant owner ops pd_zero pd1 (by decide),
    fun pd pd1 h => ⟨(xdp_release_pd_spec pd pd1 h).1,
      (xdp_release_pd_spec pd pd1 h).2.2⟩,
    fun order bok rok os blk hblk => ⟨?_, rfl⟩⟩
  unfold bt_alloc_pd at hblk ⊢
  by_cases hb : bok = false
  · rw [if_pos hb] at hblk; exact absurd hblk (by simp)
  · rw [if_neg hb] at hblk ⊢
    by_cases hf : (umem_pages_alloc pd_zero.umem
        (EFHW_BUFFER_TABLE_BLOCK_SIZE <<< order) rok os).2 < 0
    · simp only [if_pos hf] at hblk
      exact absurd hblk (by simp)
    · simp only [if_neg hf]
      unfold xdp_release_pd
      norm_num [pd_zero]

/-- Witness for C2: one successful allocation from the zeroed PD (order 0,
one fresh block) immediately freed resets the PD. -/
theorem C2_pd_accounting_witness :
    xdp_release_pd (bt_alloc_pd pd_zero 5 0 true true [some 0]).pd =
      some pd_zero ∧
    pd_zero.umem.page_count = 0 :=
  (C2_pd_accounting 5).2.2.2 0 true true [some 0]
    ⟨0 ||| (5 <<< 8), 0⟩ (by decide)

/-- Return code and page_count of a umem_pages_alloc call that did not fail. -/
theorem umem_pages_alloc_rc (p : umem_pages) (n : Nat) (rok : Bool)
    (os : List (Option Nat))
    (h : ¬(umem_pages_alloc p n rok os).2 < 0) :
    (umem_pages_alloc p n rok os).2 = 0 ∧
    (umem_pages_alloc p n rok os).1.page_count = p.page_count + n := by
  cases rok with
  | false =>
      exact absurd (show (umem_pages_alloc p n false os).2 < 0 by
        show (-ENOMEM : Int) < 0
        norm_num [ENOMEM]) h
  | true =>
      obtain ⟨hpc, -, -⟩ := umem_alloc_loop_spec
        ((p.page_count + n + UMEM_BLOCK - 1) / UMEM_BLOCK - p.block_count) os p
      by_cases hf : (umem_alloc_loop
          ((p.page_count + n + UMEM_BLOCK - 1) / UMEM_BLOCK - p.block_count)
          os p).2 < 0
      · have he : umem_pages_alloc p n true os = umem_alloc_loop
            ((p.page_count + n + UMEM_BLOCK - 1) / UMEM_BLOCK - p.block_count)
            os p := by
          show (if _ < (0 : Int) then _ else _) = _
          rw [if_pos hf]
        rw [he] at h
        exact absurd hf h
      · have he : umem_pages_alloc p n true os =
            ({ (umem_alloc_loop
              ((p.page_count + n + UMEM_BLOCK - 1) / UMEM_BLOCK -
                p.block_count) os p).1 with
              page_count := (umem_alloc_loop
              ((p.page_count + n + UMEM_BLOCK - 1) / UMEM_BLOCK -
                p.block_count) os p).1.page_count + n }, 0) := by
          show (if _ < (0 : Int) then _ else _) = _
          rw [if_neg hf]
        rw [he]
        refine ⟨rfl, ?_⟩
        show (umem_alloc_loop
          ((p.page_count + n + UMEM_BLOCK - 1) / UMEM_BLOCK - p.block_count)
          os p).1.page_count + n = p.page_count + n
        rw [hpc]

/-- bt_alloc_pd on the success path. -/
theorem bt_alloc_pd_success (pd : protection_domain) (owner order : Nat)
    (rok : Bool) (os : List (Option Nat))
    (h : ¬(umem_pages_alloc pd.umem (EFHW_BUFFER_TABLE_BLOCK_SIZE <<< order)
      rok os).2 < 0) :
    (bt_alloc_pd pd owner order true rok os).rc = 0 ∧
    (bt_alloc_pd pd owner order true rok os).block =
      some ⟨order ||| (owner <<< 8), pd.umem.page_count <<< PAGE_SHIFT⟩ ∧
    (bt_alloc_pd pd owner order true rok os).pd.umem.page_count =
      pd.umem.page_count + (EFHW_BUFFER_TABLE_BLOCK_SIZE <<< order) ∧
    (bt_alloc_pd pd owner order true rok os).pd.buffer_table_count =
      pd.buffer_table_count + 1 ∧
    (bt_alloc_pd pd owner order true rok os).block_freed = false := by
  obtain ⟨hrc, hpc⟩ := umem_pages_alloc_rc pd.umem
    (EFHW_BUFFER_TABLE_BLOCK_SIZE <<< order) rok os h
  have he : bt_alloc_pd pd owner order true rok os =
      ⟨{ pd with umem := (umem_pages_alloc pd.umem (EFHW_BUFFER_TABLE_BLOCK_SIZE <<< order) rok os).1, buffer_table_count := pd.buffer_table_count + 1 },
        0, some ⟨order ||| (owner <<< 8),
          pd.umem.page_count <<< PAGE_SHIFT⟩, false⟩ := by
    show (if (true = false) then _ else _) = _
    rw [if_neg (by simp)]
    show (if _ < (0 : Int) then _ else _) = _
    rw [if_neg h]
  rw [he]
  exact ⟨rfl, rfl, hpc, rfl, rfl⟩

/-- bt_alloc_pd on the growth-failure path. -/
theorem bt_alloc_pd_fail (pd : protection_domain) (owner order : Nat)
    (rok : Bool) (os : List (Option Nat))
    (h : (umem_pages_alloc pd.umem (EFHW_BUFFER_TABLE_BLOCK_SIZE <<< order)
      rok os).2 < 0) :
    (bt_alloc_pd pd owner order true rok os).rc < 0 ∧
    (bt_alloc_pd pd owner order true rok os).block = none ∧
    (bt_alloc_pd pd owner order true rok os).block_freed = true ∧
    (bt_alloc_pd pd owner order true rok os).pd.buffer_table_count =
      pd.buffer_table_count ∧
    (bt_alloc_pd pd owner order true rok os).pd.freed_buffer_table_count =
      pd.freed_buffer_table_count := by
  have he : bt_alloc_pd pd owner order true rok os =
      ⟨{ pd with umem := (umem_pages_alloc pd.umem
          (EFHW_BUFFER_TABLE_BLOCK_SIZE <<< order) rok os).1 },
        (umem_pages_alloc pd.umem
          (EFHW_BUFFER_TABLE_BLOCK_SIZE <<< order) rok os).2,
        none, true⟩ := by
    show (if (true = false) then _ else _) = _
    rw [if_neg (by simp)]
    show (if _ < (0 : Int) then _ else _) = _
    rw [if_pos h]
  rw [he]
  exact ⟨h, rfl, rfl, rfl, rfl⟩

/-- C6 counterexample: for owner = 2^24, the first owner outside the handle
encoding range, allocation fails with no-such-device (-ENODEV), not
resource-exhaustion (-ENOSPC): pd_by_owner already rejects every owner above
MAX_PDS = 256, so the dedicated 1 << 24 check is never reached. -/
theorem C6_owner_overflow_enodev :
    (af_xdp_nic_buffer_table_alloc nic0 ((1 <<< 24 : Nat) : Int) 0 true true
      [some 0]).2.rc = -ENODEV ∧
    (-ENODEV : Int) ≠ -ENOSPC := by
  constructor
  · rfl
  · decide

/-- C6 (amended): allocate_buffer_block fails with no-such-device — not
resource-exhaustion — when owner is at or above 2^24, because the PD lookup
(bounded by MAX_PDS) rejects such owners before the handle-encoding check is
reached; on success the returned block's base virtual offset equals the PD's
page_count before growth converted to bytes, the Page Directory grows by
EFHW_BUFFER_TABLE_BLOCK_SIZE << order pages, and buffer_table_count is
incremented; if the page growth fails, buffer_table_count is not incremented
and the kzalloc'd block storage is released (not leaked). -/
theorem C6_buffer_table_alloc (nic : efhw_nic) (xdp : efhw_nic_af_xdp)
    (owner : Int) (order : Nat) (rok : Bool) (os : List (Option Nat))
    (hx : nic.af_xdp = some xdp) :
    (((1 <<< 24 : Nat) : Int) ≤ owner →
      (af_xdp_nic_buffer_table_alloc nic owner order true rok os).2.rc =
        -ENODEV ∧
      (af_xdp_nic_buffer_table_alloc nic owner order true rok os).1 = nic) ∧
    (0 ≤ owner → owner ≤ (MAX_PDS : Int) →
      (¬(umem_pages_alloc (nic_pd nic owner.toNat).umem
          (EFHW_BUFFER_TABLE_BLOCK_SIZE <<< order) rok os).2 < 0 →
        (af_xdp_nic_buffer_table_alloc nic owner order true rok os).2.rc =
          0 ∧
        (af_xdp_nic_buffer_table_alloc nic owner order true rok os).2.block =
          some ⟨order ||| (owner.toNat <<< 8),
            (nic_pd nic owner.toNat).umem.page_count <<< PAGE_SHIFT⟩ ∧
        (owner.toNat < xdp.pd.length →
          (nic_pd (af_xdp_nic_buffer_table_alloc nic owner order true rok
              os).1 owner.toNat).umem.page_count =
            (nic_pd nic owner.toNat).umem.page_count +
              (EFHW_BUFFER_TABLE_BLOCK_SIZE <<< order) ∧
          (nic_pd (af_xdp_nic_buffer_table_alloc nic owner order true rok
              os).1 owner.toNat).buffer_table_count =
            (nic_pd nic owner.toNat).buffer_table_count + 1)) ∧
      ((umem_pages_alloc (nic_pd nic owner.toNat).umem
          (EFHW_BUFFER_TABLE_BLOCK_SIZE <<< order) rok os).2 < 0 →
        (af_xdp_nic_buffer_table_alloc nic owner order true rok os).2.rc <
          0 ∧
        (af_xdp_nic_buffer_table_alloc nic owner order true rok os).2.block =
          none ∧
        (af_xdp_nic_buffer_table_alloc nic owner order true rok
          os).2.block_freed = true ∧
        (owner.toNat < xdp.pd.length →
          (nic_pd (af_xdp_nic_buffer_table_alloc nic owner order true rok
              os).1 owner.toNat).buffer_table_count =
            (nic_pd nic owner.toNat).buffer_table_count))) := by
  have h24 : ((1 <<< 24 : Nat) : Int) = 16777216 := by decide
  constructor
  · intro hbig
    have hpd : pd_by_owner nic owner = none := by
      unfold pd_by_owner
      rw [hx]
      rw [if_pos (Or.inl (by rw [h24] at hbig; unfold MAX_PDS; omega))]
    constructor <;> simp only [af_xdp_nic_buffer_table_alloc, hx, hpd]
  · intro h0 hmax
    have hpd : pd_by_owner nic owner = some owner := by
      unfold pd_by_owner
      rw [hx]
      rw [if_neg (by push_neg; exact ⟨hmax, h0⟩)]
    have hsmall : ¬((1 <<< 24 : Nat) : Int) ≤ owner := by
      rw [h24]
      unfold MAX_PDS at hmax
      omega
    have hpd_eq : nic_pd nic owner.toNat = xdp.pd.getD owner.toNat pd_zero :=
      by unfold nic_pd; rw [hx]
    have hresult : af_xdp_nic_buffer_table_alloc nic owner order true rok os =
        (⟨nic.vi_lim, some ⟨xdp.vi, xdp.pd.set owner.toNat
          (bt_alloc_pd (xdp.pd.getD owner.toNat pd_zero) owner.toNat order
            true rok os).pd⟩⟩,
         bt_alloc_pd (xdp.pd.getD owner.toNat pd_zero) owner.toNat order
           true rok os) := by
      simp only [af_xdp_nic_buffer_table_alloc, hx, hpd, if_neg hsmall]
    have hpdset : ∀ pd1 : protection_domain, owner.toNat < xdp.pd.length →
        nic_pd (⟨nic.vi_lim, some ⟨xdp.vi, xdp.pd.set owner.toNat pd1⟩⟩ :
          efhw_nic) owner.toNat = pd1 := by
      intro pd1 hlen
      unfold nic_pd
      simp only []
      rw [List.getD_eq_getElem _ _ (by rw [List.length_set]; exact hlen)]
      exact List.getElem_set_self _
    constructor
    · intro hok
      rw [hpd_eq] at hok
      obtain ⟨hrc, hblk, hpc, hcnt, -⟩ := bt_alloc_pd_success
        (xdp.pd.getD owner.toNat pd_zero) owner.toNat order rok os hok
      rw [hresult]
      refine ⟨hrc, by rw [hblk, hpd_eq], fun hlen => ?_⟩
      rw [hpdset _ hlen, hpd_eq, hpc, hcnt]
      exact ⟨rfl, rfl⟩
    · intro hbad
      rw [hpd_eq] at hbad
      obtain ⟨hrc, hblk, hfreed, hcnt, -⟩ := bt_alloc_pd_fail
        (xdp.pd.getD owner.toNat pd_zero) owner.toNat order rok os hbad
      rw [hresult]
      refine ⟨hrc, hblk, hfreed, fun hlen => ?_⟩
      rw [hpdset _ hlen, hpd_eq, hcnt]

/-- Witness for C6 at a concrete successful allocation: owner 5, order 0 on
the fresh NIC. -/
theorem C6_buffer_table_alloc_witness :
    (af_xdp_nic_buffer_table_alloc nic0 5 0 true true [some 0]).2.rc = 0 ∧
    (af_xdp_nic_buffer_table_alloc nic0 5 0 true true [some 0]).2.block =
      some ⟨0 ||| (5 <<< 8), 0⟩ := by
  have h := ((C6_buffer_table_alloc nic0 xdp0 5 0 true [some 0] rfl).2
    (by decide) (by decide)).1 (by decide)
  refine ⟨h.1, ?_⟩
  rw [h.2.1]
  decide

/-- getD after set at a different index is unchanged. -/
theorem list_getD_set_ne {α : Type} (l : List α) (d : α) (i j : Nat) (a : α)
    (h : i ≠ j) : (l.set i a).getD j d = l.getD j d := by
  simp [List.getD_eq_getD_get?, List.get?_eq_getElem?, List.getElem?_set_ne h]

/-- getD after set at the same in-range index yields the new value. -/
theorem list_getD_set_self {α : Type} (l : List α) (d a : α) (i : Nat)
    (h : i < l.length) : (l.set i a).getD i d = a := by
  rw [List.getD_eq_getElem _ _ (by rw [List.length_set]; exact h)]
  exact List.getElem_set_self _

/-- getD of a take is getD of the list below the cut. -/
theorem list_getD_take (l : List Int) (n i : Nat) (h : i < n) :
    (l.take n).getD i 0 = l.getD i 0 := by
  simp [List.getD_eq_getD_get?, List.get?_eq_getElem?, List.getElem?_take, h]

/-- Every block slot of a well-formed directory has UMEM_BLOCK address
entries, the out-of-range default included. -/
theorem getD_block_addrs_length (u : umem_pages)
    (hw : ∀ b ∈ u.blocks, b.addrs.length = UMEM_BLOCK) (bi : Nat) :
    (u.blocks.getD bi (umem_block.new 0)).addrs.length = UMEM_BLOCK := by
  by_cases hbi : bi < u.blocks.length
  · rw [List.getD_eq_getElem _ _ hbi]
    exact hw _ (List.getElem_mem hbi)
  · rw [List.getD_eq_default _ _ (by omega)]
    simp [umem_block.new]

theorem set_addr_page_count (u : umem_pages) (page : Nat) (addr : Int) :
    (umem_pages_set_addr u page addr).page_count = u.page_count := rfl

theorem set_addr_blocks_length (u : umem_pages) (page : Nat) (addr : Int) :
    (umem_pages_set_addr u page addr).blocks.length = u.blocks.length := by
  show (u.blocks.set _ _).length = u.blocks.length
  exact List.length_set _ _ _

theorem set_addr_addrs_length (u : umem_pages) (page : Nat) (addr : Int)
    (hw : ∀ b ∈ u.blocks, b.addrs.length = UMEM_BLOCK) :
    ∀ b ∈ (umem_pages_set_addr u page addr).blocks,
      b.addrs.length = UMEM_BLOCK := by
  intro b hb
  rcases List.mem_or_eq_of_mem_set hb with hmem | heq
  · exact hw b hmem
  · subst heq
    show ((u.blocks.getD (page / UMEM_BLOCK) (umem_block.new 0)).addrs.set
      (page % UMEM_BLOCK) addr).length = UMEM_BLOCK
    rw [List.length_set]
    exact getD_block_addrs_length u hw _

/-- Read-after-write: set then get at the same in-capacity page yields the
stored address. -/
theorem get_set_same (u : umem_pages) (page : Nat) (addr : Int)
    (hw : ∀ b ∈ u.blocks, b.addrs.length = UMEM_BLOCK)
    (hpage : page < u.blocks.length * UMEM_BLOCK) :
    umem_pages_get_addr (umem_pages_set_addr u page addr) page = addr := by
  have hB : 0 < UMEM_BLOCK := by decide
  have hbi : page / UMEM_BLOCK < u.blocks.length :=
    (Nat.div_lt_iff_lt_mul hB).mpr hpage
  have hmod : page % UMEM_BLOCK <
      (u.blocks.getD (page / UMEM_BLOCK) (umem_block.new 0)).addrs.length := by
    rw [getD_block_addrs_length u hw]
    exact Nat.mod_lt _ hB
  show ((u.blocks.set (page / UMEM_BLOCK) _).getD (page / UMEM_BLOCK)
    (umem_block.new 0)).addrs.getD (page % UMEM_BLOCK) 0 = addr
  rw [list_getD_set_self _ _ _ _ hbi]
  show ((u.blocks.getD (page / UMEM_BLOCK) (umem_block.new 0)).addrs.set
    (page % UMEM_BLOCK) addr).getD (page % UMEM_BLOCK) 0 = addr
  rw [list_getD_set_self _ _ _ _ hmod]

/-- Frame: set leaves every other page's stored address unchanged. -/
theorem get_set_ne (u : umem_pages) (page q : Nat) (addr : Int)
    (hne : q ≠ page) :
    umem_pages_get_addr (umem_pages_set_addr u page addr) q =
      umem_pages_get_addr u q := by
  show ((u.blocks.set (page / UMEM_BLOCK) _).getD (q / UMEM_BLOCK)
      (umem_block.new 0)).addrs.getD (q % UMEM_BLOCK) 0 =
    (u.blocks.getD (q / UMEM_BLOCK) (umem_block.new 0)).addrs.getD
      (q % UMEM_BLOCK) 0
  by_cases hdiv : page / UMEM_BLOCK = q / UMEM_BLOCK
  · by_cases hbi : page / UMEM_BLOCK < u.blocks.length
    · have hmod : page % UMEM_BLOCK ≠ q % UMEM_BLOCK := by
        intro hm
        apply hne
        have h1 := Nat.div_add_mod page UMEM_BLOCK
        have h2 := Nat.div_add_mod q UMEM_BLOCK
        rw [hdiv, hm] at h1
        omega
      rw [← hdiv, list_getD_set_self _ _ _ _ hbi]
      show ((u.blocks.getD (page / UMEM_BLOCK) (umem_block.new 0)).addrs.set
        (page % UMEM_BLOCK) addr).getD (q % UMEM_BLOCK) 0 =
        (u.blocks.getD (page / UMEM_BLOCK) (umem_block.new 0)).addrs.getD
          (q % UMEM_BLOCK) 0
      rw [list_getD_set_ne _ _ _ _ _ hmod]
    · rw [List.set_eq_of_length_le (by omega)]
  · rw [list_getD_set_ne _ _ _ _ _ hdiv]

/-- Specification of the inner write loop: the n pages from `page` hold
addr, addr + PAGE_SIZE, ...; pages below `page` are untouched; the storage
shape and page_count are preserved. -/
theorem bt_set_entry_spec (n : Nat) : ∀ (u : umem_pages) (page : Nat)
    (addr : Int),
    (∀ b ∈ u.blocks, b.addrs.length = UMEM_BLOCK) →
    page + n ≤ u.blocks.length * UMEM_BLOCK →
    (∀ j, j < n → umem_pages_get_addr (bt_set_entry u page addr n)
        (page + j) = addr + (j : Int) * (PAGE_SIZE : Int)) ∧
    (∀ q, q < page → umem_pages_get_addr (bt_set_entry u page addr n) q =
      umem_pages_get_addr u q) ∧
    (bt_set_entry u page addr n).blocks.length = u.blocks.length ∧
    (∀ b ∈ (bt_set_entry u page addr n).blocks,
      b.addrs.length = UMEM_BLOCK) ∧
    (bt_set_entry u page addr n).page_count = u.page_count := by
  induction n with
  | zero =>
      intro u page addr hw hcap
      exact ⟨fun j hj => absurd hj (by omega), fun q hq => rfl, rfl, hw, rfl⟩
  | succ n ih =>
      intro u page addr hw hcap
      have hstep : bt_set_entry u page addr (n + 1) =
          bt_set_entry (umem_pages_set_addr u page addr) (page + 1)
            (addr + (PAGE_SIZE : Int)) n := rfl
      have hw1 := set_addr_addrs_length u page addr hw
      have hlen1 := set_addr_blocks_length u page addr
      obtain ⟨hmain, hframe, hlen, hwout, hpc⟩ := ih
        (umem_pages_set_addr u page addr) (page + 1)
        (addr + (PAGE_SIZE : Int)) hw1 (by rw [hlen1]; omega)
      rw [hstep]
      refine ⟨?_, ?_, ?_, hwout, ?_⟩
      · intro j hj
        by_cases hj0 : j = 0
        · subst hj0
          have h0 : umem_pages_get_addr
              (bt_set_entry (umem_pages_set_addr u page addr) (page + 1)
                (addr + (PAGE_SIZE : Int)) n) page = addr := by
            rw [hframe page (by omega),
              get_set_same u page addr hw (by omega)]
          simpa using h0
        · obtain ⟨j', rfl⟩ := Nat.exists_eq_succ_of_ne_zero hj0
          rw [show page + (j' + 1) = (page + 1) + j' by omega,
            hmain j' (by omega)]
          push_cast
          ring
      · intro q hq
        rw [hframe q (by omega), get_set_ne u page q addr (by omega)]
      · rw [hlen, hlen1]
      · rw [hpc]
        exact set_addr_page_count u page addr

/-- Specification of the outer write loop: entry i's 2^order pages hold the
i-th supplied address stepped one page size per page; pages below `page` are
untouched; the storage shape and page_count are preserved. -/
theorem bt_set_loop_spec (l : List Int) : ∀ (u : umem_pages)
    (page order : Nat),
    (∀ b ∈ u.blocks, b.addrs.length = UMEM_BLOCK) →
    page + l.length * (1 <<< order) ≤ u.blocks.length * UMEM_BLOCK →
    (∀ i, i < l.length → ∀ j, j < (1 <<< order) →
      umem_pages_get_addr (bt_set_loop u page order l)
        (page + i * (1 <<< order) + j) =
        l.getD i 0 + (j : Int) * (PAGE_SIZE : Int)) ∧
    (∀ q, q < page → umem_pages_get_addr (bt_set_loop u page order l) q =
      umem_pages_get_addr u q) ∧
    (bt_set_loop u page order l).blocks.length = u.blocks.length ∧
    (∀ b ∈ (bt_set_loop u page order l).blocks,
      b.addrs.length = UMEM_BLOCK) ∧
    (bt_set_loop u page order l).page_count = u.page_count := by
  induction l with
  | nil =>
      intro u page order hw hcap
      exact ⟨fun i hi => absurd hi (by simp at hi), fun q hq => rfl, rfl, hw,
        rfl⟩
  | cons a rest ih =>
      intro u page order hw hcap
      obtain ⟨K, hK⟩ : ∃ K, K = 1 <<< order := ⟨_, rfl⟩
      rw [← hK] at hcap ⊢
      have hcap' : page + (rest.length * K + K) ≤
          u.blocks.length * UMEM_BLOCK := by
        rw [List.length_cons, Nat.add_mul, Nat.one_mul] at hcap
        omega
      obtain ⟨emain, eframe, elen, ewf, epc⟩ :=
        bt_set_entry_spec K u page a hw (by omega)
      have hloop := ih (bt_set_entry u page a K) (page + K) order ewf
      rw [← hK] at hloop
      obtain ⟨lmain, lframe, llen, lwf, lpc⟩ := hloop (by rw [elen]; omega)
      have hstep : bt_set_loop u page order (a :: rest) =
          bt_set_loop (bt_set_entry u page a K) (page + K) order rest := by
        rw [hK]
        exact rfl
      rw [hstep]
      refine ⟨?_, ?_, ?_, lwf, ?_⟩
      · intro i hi j hj
        by_cases hi0 : i = 0
        · subst hi0
          rw [Nat.zero_mul, Nat.add_zero, List.getD_cons_zero,
            lframe (page + j) (by omega), emain j hj]
        · obtain ⟨i', rfl⟩ := Nat.exists_eq_succ_of_ne_zero hi0
          rw [show page + (i' + 1) * K + j = (page + K) + i' * K + j by
              rw [Nat.add_mul, Nat.one_mul]; omega,
            List.getD_cons_succ,
            lmain i' (by simpa using hi) j hj]
      · intro q hq
        rw [lframe q (by omega), eframe q hq]
      · rw [llen, elen]
      · rw [lpc, epc]

/-- Shifting left is multiplication by the shifted unit. -/
theorem shiftLeft_eq_mul_one_shiftLeft (n o : Nat) :
    n <<< o = n * (1 <<< o) := by
  rw [Nat.shiftLeft_eq, Nat.shiftLeft_eq, Nat.one_mul]

/-- C8: buffer_table_set checks the page range — starting at the block's base
offset plus first_entry << order and spanning n_entries << order pages —
against the PD's current page_count; an out-of-range request fails with
invalid-argument and writes nothing, and an in-range request succeeds,
expanding each of the n_entries supplied addresses into 2^order consecutive
page handles, stepping one page size per handle, written at consecutive page
indices of that range. -/
theorem C8_buffer_table_set (nic : efhw_nic) (xdp : efhw_nic_af_xdp)
    (block : buffer_table_block) (first_entry n_entries : Nat)
    (dma_addrs : List Int)
    (hx : nic.af_xdp = some xdp)
    (howner : block.handle >>> 8 ≤ MAX_PDS)
    (hlen : block.handle >>> 8 < xdp.pd.length)
    (hwf : ∀ b ∈ (nic_pd nic (block.handle >>> 8)).umem.blocks,
      b.addrs.length = UMEM_BLOCK)
    (hcap : (nic_pd nic (block.handle >>> 8)).umem.page_count ≤
      (nic_pd nic (block.handle >>> 8)).umem.blocks.length * UMEM_BLOCK)
    (hn : n_entries ≤ dma_addrs.length) :
    ((nic_pd nic (block.handle >>> 8)).umem.page_count <
        (block.btb_vaddr >>> PAGE_SHIFT) +
          (first_entry <<< (block.handle &&& 255)) +
          (n_entries <<< (block.handle &&& 255)) →
      af_xdp_nic_buffer_table_set nic block first_entry n_entries dma_addrs =
        (nic, -EINVAL)) ∧
    ((block.btb_vaddr >>> PAGE_SHIFT) +
        (first_entry <<< (block.handle &&& 255)) +
        (n_entries <<< (block.handle &&& 255)) ≤
      (nic_pd nic (block.handle >>> 8)).umem.page_count →
      (af_xdp_nic_buffer_table_set nic block first_entry n_entries
        dma_addrs).2 = 0 ∧
      ∀ i, i < n_entries → ∀ j, j < (1 <<< (block.handle &&& 255)) →
        umem_pages_get_addr
          (nic_pd (af_xdp_nic_buffer_table_set nic block first_entry
            n_entries dma_addrs).1 (block.handle >>> 8)).umem
          ((block.btb_vaddr >>> PAGE_SHIFT) +
            (first_entry <<< (block.handle &&& 255)) +
            i * (1 <<< (block.handle &&& 255)) + j) =
          dma_addrs.getD i 0 + (j : Int) * (PAGE_SIZE : Int)) := by
  have hrange : ¬((MAX_PDS : Int) < ((block.handle >>> 8 : Nat) : Int) ∨
      ((block.handle >>> 8 : Nat) : Int) < 0) := by
    push_neg
    exact ⟨by exact_mod_cast howner, Int.natCast_nonneg _⟩
  have hpd : pd_by_owner nic ((block.handle >>> 8 : Nat) : Int) =
      some ((block.handle >>> 8 : Nat) : Int) := by
    unfold pd_by_owner
    rw [hx]
    rw [if_neg hrange]
  have hpd_eq : nic_pd nic (block.handle >>> 8) =
      xdp.pd.getD (block.handle >>> 8) pd_zero := by
    unfold nic_pd
    rw [hx]
  have hbody : af_xdp_nic_buffer_table_set nic block first_entry n_entries
      dma_addrs =
      (if (xdp.pd.getD (block.handle >>> 8) pd_zero).umem.page_count <
          (block.btb_vaddr >>> PAGE_SHIFT) +
            (first_entry <<< (block.handle &&& 255)) +
            (n_entries <<< (block.handle &&& 255)) then (nic, -EINVAL)
       else (⟨nic.vi_lim, some ⟨xdp.vi, xdp.pd.set (block.handle >>> 8)
          { xdp.pd.getD (block.handle >>> 8) pd_zero with
            umem := bt_set_loop
              (xdp.pd.getD (block.handle >>> 8) pd_zero).umem
              ((block.btb_vaddr >>> PAGE_SHIFT) +
                (first_entry <<< (block.handle &&& 255)))
              (block.handle &&& 255)
              (dma_addrs.take n_entries) }⟩⟩, 0)) := by
    simp only [af_xdp_nic_buffer_table_set, hx, hpd, Int.toNat_natCast]
  constructor
  · intro hover
    rw [hbody, if_pos (by rw [← hpd_eq]; omega)]
  · intro hok
    rw [hpd_eq] at hok hwf hcap
    have hnot : ¬(xdp.pd.getD (block.handle >>> 8) pd_zero).umem.page_count <
        (block.btb_vaddr >>> PAGE_SHIFT) +
          (first_entry <<< (block.handle &&& 255)) +
          (n_entries <<< (block.handle &&& 255)) := by omega
    rw [hbody, if_neg hnot]
    have htake : (dma_addrs.take n_entries).length = n_entries := by
      rw [List.length_take]
      exact Nat.min_eq_left hn
    have hsh := shiftLeft_eq_mul_one_shiftLeft n_entries
      (block.handle &&& 255)
    obtain ⟨lmain, -, -, -, -⟩ := bt_set_loop_spec (dma_addrs.take n_entries)
      (xdp.pd.getD (block.handle >>> 8) pd_zero).umem
      ((block.btb_vaddr >>> PAGE_SHIFT) +
        (first_entry <<< (block.handle &&& 255)))
      (block.handle &&& 255) hwf (by rw [htake, ← hsh]; omega)
    refine ⟨rfl, fun i hi j hj => ?_⟩
    have hpdset : nic_pd (⟨nic.vi_lim, some ⟨xdp.vi,
        xdp.pd.set (block.handle >>> 8)
          { xdp.pd.getD (block.handle >>> 8) pd_zero with
            umem := bt_set_loop
              (xdp.pd.getD (block.handle >>> 8) pd_zero).umem
              ((block.btb_vaddr >>> PAGE_SHIFT) +
                (first_entry <<< (block.handle &&& 255)))
              (block.handle &&& 255)
              (dma_addrs.take n_entries) }⟩⟩ : efhw_nic)
        (block.handle >>> 8) =
        { xdp.pd.getD (block.handle >>> 8) pd_zero with
          umem := bt_set_loop
            (xdp.pd.getD (block.handle >>> 8) pd_zero).umem
            ((block.btb_vaddr >>> PAGE_SHIFT) +
              (first_entry <<< (block.handle &&& 255)))
            (block.handle &&& 255)
            (dma_addrs.take n_entries) } := by
      unfold nic_pd
      simp only []
      rw [List.getD_eq_getElem _ _ (by rw [List.length_set]; exact hlen)]
      exact List.getElem_set_self _
    rw [hpdset]
    have := lmain i (by omega) j hj
    rw [list_getD_take dma_addrs n_entries i hi] at this
    show umem_pages_get_addr
      (bt_set_loop (xdp.pd.getD (block.handle >>> 8) pd_zero).umem
        ((block.btb_vaddr >>> PAGE_SHIFT) +
          (first_entry <<< (block.handle &&& 255)))
        (block.handle &&& 255) (dma_addrs.take n_entries))
      ((block.btb_vaddr >>> PAGE_SHIFT) +
        (first_entry <<< (block.handle &&& 255)) +
        i * (1 <<< (block.handle &&& 255)) + j) =
      dma_addrs.getD i 0 + (j : Int) * (PAGE_SIZE : Int)
    exact this

/-- The PD array of xdp1 has the standard MAX_PDS entries. -/
theorem xdp1_pd_length : xdp1.pd.length = 256 := by
  show ((_ : protection_domain) :: List.replicate 255 pd_zero).length = 256
  rw [List.length_cons, List.length_replicate]

/-- Witness for C8: writing two order-0 entries (addresses 100 and 200) at
entries 0 and 1 of an owner-0 block succeeds and stores them at pages 0
and 1. -/
theorem C8_buffer_table_set_witness :
    (af_xdp_nic_buffer_table_set nic1 ⟨0, 0⟩ 0 2 [100, 200]).2 = 0 ∧
    umem_pages_get_addr (nic_pd (af_xdp_nic_buffer_table_set nic1 ⟨0, 0⟩ 0 2
      [100, 200]).1 0).umem 0 = 100 ∧
    umem_pages_get_addr (nic_pd (af_xdp_nic_buffer_table_set nic1 ⟨0, 0⟩ 0 2
      [100, 200]).1 0).umem 1 = 200 := by
  have h := (C8_buffer_table_set nic1 xdp1 ⟨0, 0⟩ 0 2 [100, 200] rfl
    (by decide) (by rw [xdp1_pd_length]; decide)
    (by intro b hb
        have hb' : b ∈ [umem_block.new 0] := hb
        rw [List.mem_singleton.mp hb']
        simp [umem_block.new])
    (by decide) (by decide)).2 (by decide)
  exact ⟨h.1, by decide, by decide⟩

end OnloadAfXdp
